import Mathlib

/-!
# Verification of the worktree status-reconciliation engine

Shallow embedding of the `worktree-manager` repository's core components:

* the status cache (`src/utils/cache.ts`: `loadCache`, `saveCache`,
  `getCachedPRNumbers`, `updateCachedPRNumbers`),
* the GitHub review client (`src/utils/github.ts`: `batchGetPRStatuses`,
  `findPRForBranch`),
* the repository inspector (`src/utils/git.ts`: `listWorktrees`,
  `getBranchHeadSha`, `commitExists`, `hasNonMergeCommitsAfter`,
  `hasCommitsNotInBranch`),
* the status reconciliation engine (`src/commands/list.ts`:
  `getWorktreeStatuses`, `getNoPRStatus`, and the item-building post-pass
  in `list`).

JavaScript `Map`s and JSON objects are modelled as association lists with
unique keys; `setKey` replaces the first occurrence of an existing key in
place and appends new keys, matching JS assignment on such maps.  External
processes (git, gh) are modelled as oracle functions collected in an `Env`
record; every call the engine makes to the single-branch lookup is recorded
in a log together with the call site, so that claims about which lookups
are issued can be stated.

Commit ids are modelled as natural numbers; a local commit graph is a list
of parent lists indexed by commit id (parents of a commit have smaller
indices, matching the topological character of git history), which lets the
git ancestry queries be embedded executably.
-/

namespace WTM

/-! ## Association lists with JavaScript object/Map semantics -/

/-- JS `obj[k]` / `Map.get` on a unique-key association list. -/
def lookupKey {κ α : Type} [DecidableEq κ] : List (κ × α) → κ → Option α
  | [], _ => none
  | p :: m, k => if p.1 = k then some p.2 else lookupKey m k

/-- JS `Map.has` / `obj[k] !== undefined`. -/
def hasKey {κ α : Type} [DecidableEq κ] (m : List (κ × α)) (k : κ) : Bool :=
  (lookupKey m k).isSome

/-- JS assignment `obj[k] = v` / `Map.set`: replaces an existing key in
place, otherwise appends the new entry. -/
def setKey {κ α : Type} [DecidableEq κ] : List (κ × α) → κ → α → List (κ × α)
  | [], k, v => [(k, v)]
  | p :: m, k, v => if p.1 = k then (k, v) :: m else p :: setKey m k v

@[simp] theorem lookupKey_nil {κ α : Type} [DecidableEq κ] (k : κ) :
    lookupKey ([] : List (κ × α)) k = none := rfl

@[simp] theorem lookupKey_setKey_self {κ α : Type} [DecidableEq κ]
    (m : List (κ × α)) (k : κ) (v : α) :
    lookupKey (setKey m k v) k = some v := by
  induction m with
  | nil => simp [setKey, lookupKey]
  | cons p m ih =>
    by_cases hp : p.1 = k
    · simp [setKey, lookupKey, hp]
    · simp [setKey, lookupKey, hp, ih]

theorem lookupKey_setKey_ne {κ α : Type} [DecidableEq κ]
    (m : List (κ × α)) (k k' : κ) (v : α) (h : k' ≠ k) :
    lookupKey (setKey m k v) k' = lookupKey m k' := by
  induction m with
  | nil => simp [setKey, lookupKey, Ne.symm h]
  | cons p m ih =>
    by_cases hp : p.1 = k
    · simp [setKey, lookupKey, hp, Ne.symm h]
    · by_cases hp' : p.1 = k'
      · simp only [setKey, if_neg hp]
        simp [lookupKey, hp']
      · simp only [setKey, if_neg hp]
        simp [lookupKey, hp', ih]

/-! ## Status cache (`src/utils/cache.ts`)

The persisted document is `{ "prNumbers": { "<branch>": <number> } }`.
`CacheFile` models the states the file can be in: no repository context
(`getCachePath()` returns null), file missing, file unparsable, or a
well-formed document with the given `prNumbers` object. -/

inductive CacheFile : Type
  | noRepo : CacheFile
  | missing : CacheFile
  | corrupt : CacheFile
  | ok : List (String × Nat) → CacheFile
deriving DecidableEq, Repr

/-- `loadCache`: a missing path, missing file or parse failure all yield an
empty `prNumbers` map. -/
def loadCache : CacheFile → List (String × Nat)
  | .noRepo => []
  | .missing => []
  | .corrupt => []
  | .ok m => m

/-- `saveCache`: overwrites the document; no-op when there is no cache path
(write failures are swallowed, modelled as the write succeeding). -/
def saveCache (m : List (String × Nat)) : CacheFile → CacheFile
  | .noRepo => .noRepo
  | _ => .ok m

/-- `getCachedPRNumbers(branches)`: loads the cache and collects the
entries for the given branches into a `Map`. -/
def getCachedPRNumbers (branches : List String) (file : CacheFile) :
    List (String × Nat) :=
  branches.foldl
    (fun res b =>
      match lookupKey (loadCache file) b with
      | some v => setKey res b v
      | none => res)
    []

/-- `updateCachedPRNumbers(mappings)`: read-modify-write of the persisted
document — loads the cache, assigns every mapping, saves the result. -/
def updateCachedPRNumbers (mappings : List (String × Nat)) (file : CacheFile) :
    CacheFile :=
  saveCache (mappings.foldl (fun m p => setKey m p.1 p.2) (loadCache file)) file

theorem loadCache_saveCache (m : List (String × Nat)) (f : CacheFile)
    (h : f ≠ .noRepo) : loadCache (saveCache m f) = m := by
  cases f <;> simp_all [saveCache, loadCache]

theorem lookupKey_foldl_setKey_notMem (M : List (String × Nat))
    (init : List (String × Nat)) (b : String) (hb : b ∉ M.map Prod.fst) :
    lookupKey (M.foldl (fun m p => setKey m p.1 p.2) init) b = lookupKey init b := by
  induction M generalizing init with
  | nil => rfl
  | cons p M ih =>
    simp only [List.map_cons, List.mem_cons] at hb
    push_neg at hb
    simp only [List.foldl_cons]
    rw [ih _ hb.2, lookupKey_setKey_ne _ _ _ _ hb.1]

theorem lookupKey_foldl_setKey_mem (M : List (String × Nat)) (b : String)
    (v : Nat) :
    ∀ init : List (String × Nat), (M.map Prod.fst).Nodup → (b, v) ∈ M →
    lookupKey (M.foldl (fun m p => setKey m p.1 p.2) init) b = some v := by
  induction M with
  | nil => intro init _ hbv; cases hbv
  | cons p M ih =>
    intro init hnd hbv
    simp only [List.map_cons, List.nodup_cons] at hnd
    rcases List.mem_cons.mp hbv with h | h
    · subst h
      simp only [List.foldl_cons]
      rw [lookupKey_foldl_setKey_notMem _ _ _ hnd.1, lookupKey_setKey_self]
    · exact ih _ hnd.2 h

/-- Frame property of the cache write: branches outside the update map keep
their previous cached value (in every file state). -/
theorem updateCachedPRNumbers_frame (M : List (String × Nat)) (f : CacheFile)
    (b : String) (hb : b ∉ M.map Prod.fst) :
    lookupKey (loadCache (updateCachedPRNumbers M f)) b
      = lookupKey (loadCache f) b := by
  unfold updateCachedPRNumbers
  cases f with
  | noRepo => simp [saveCache, loadCache]
  | missing =>
    rw [loadCache_saveCache _ _ (by simp)]
    exact lookupKey_foldl_setKey_notMem M _ b hb
  | corrupt =>
    rw [loadCache_saveCache _ _ (by simp)]
    exact lookupKey_foldl_setKey_notMem M _ b hb
  | ok m =>
    rw [loadCache_saveCache _ _ (by simp)]
    exact lookupKey_foldl_setKey_notMem M _ b hb

/-- Branches inside a well-keyed update map get exactly the written value
(as long as the cache file has a path, i.e. a repository context exists). -/
theorem updateCachedPRNumbers_written (M : List (String × Nat)) (f : CacheFile)
    (b : String) (v : Nat) (hf : f ≠ .noRepo)
    (hnd : (M.map Prod.fst).Nodup) (hbv : (b, v) ∈ M) :
    lookupKey (loadCache (updateCachedPRNumbers M f)) b = some v := by
  unfold updateCachedPRNumbers
  rw [loadCache_saveCache _ _ hf]
  exact lookupKey_foldl_setKey_mem M b v _ hnd hbv

theorem lookupKey_getCachedPRNumbers_aux (f : CacheFile) (b : String) (v : Nat)
    (hload : lookupKey (loadCache f) b = some v) :
    ∀ (branches : List String) (init : List (String × Nat)),
      b ∈ branches ∨ lookupKey init b = some v →
      lookupKey (branches.foldl
        (fun res b' =>
          match lookupKey (loadCache f) b' with
          | some w => setKey res b' w
          | none => res) init) b = some v := by
  intro branches
  induction branches with
  | nil =>
    intro init h
    rcases h with h | h
    · cases h
    · simpa using h
  | cons x xs ih =>
    intro init h
    simp only [List.foldl_cons]
    by_cases hx : x = b
    · subst hx
      rw [hload]
      exact ih _ (Or.inr (lookupKey_setKey_self _ _ _))
    · rcases h with h | h
      · rcases List.mem_cons.mp h with h' | h'
        · exact absurd h'.symm hx
        · cases hlx : lookupKey (loadCache f) x with
          | none => exact ih _ (Or.inl h')
          | some w => exact ih _ (Or.inl h')
      · cases hlx : lookupKey (loadCache f) x with
        | none => exact ih _ (Or.inr h)
        | some w =>
          refine ih _ (Or.inr ?_)
          rw [lookupKey_setKey_ne _ _ _ _ (fun hh => hx hh.symm)]
          exact h

theorem lookupKey_getCachedPRNumbers (branches : List String) (f : CacheFile)
    (b : String) (v : Nat) (hload : lookupKey (loadCache f) b = some v)
    (hmem : b ∈ branches) :
    lookupKey (getCachedPRNumbers branches f) b = some v :=
  lookupKey_getCachedPRNumbers_aux f b v hload branches [] (Or.inl hmem)

/-! ## Review-system client (`src/utils/github.ts`)

Commit SHAs are modelled as natural numbers.  A TS `string | undefined` (or
the empty string, which is falsy everywhere the code tests it) becomes
`Option Nat` with `none` for undefined/empty. -/

inductive PRState : Type
  | OPEN : PRState
  | MERGED : PRState
  | CLOSED : PRState
deriving DecidableEq, Repr

/-- `PullRequest` as returned by `findPRForBranch` (`getPRInfoWithCommit`):
`headRefOid` and `headRefName` are optional in the TS interface. -/
structure PullRequest : Type where
  number : Nat
  state : PRState
  headRefOid : Option Nat
  headRefName : Option String
deriving DecidableEq, Repr

/-- `PRStatus` as returned by the batch GraphQL fetch.  `headRefOid` is a
string in TS; `none` models the empty string. -/
structure PRStatus : Type where
  number : Nat
  state : PRState
  headRefOid : Option Nat
  headRefName : String
deriving DecidableEq, Repr

/-- `batchGetPRStatuses(prNumbers)`: one bulk GraphQL query.  The external
call (repo lookup + GraphQL) may fail, modelled by the `api` argument being
`Except.error`; the response carries one optional node per requested id
(`pr0`, `pr1`, ...), each possibly null.  On any failure the function
returns an empty map; with an empty id list no call is made at all. -/
def batchGetPRStatuses (prNumbers : List Nat)
    (api : Except Unit (List (Option PRStatus))) : List (Nat × PRStatus) :=
  if prNumbers.isEmpty then []
  else
    match api with
    | .error _ => []
    | .ok nodes =>
      (List.range prNumbers.length).foldl
        (fun res i =>
          match nodes.get? i with
          | some (some pr) => setKey res pr.number pr
          | _ => res)
        []

/-! ## Statuses and the external-call environment -/

/-- The `WorktreeStatus` string union of `src/commands/list.ts`.
`ChangesSinceMerge` renders as "Changes since Merge" and
`UncommittedChanges` as "Uncommitted Changes". -/
inductive WorktreeStatus : Type
  | Open : WorktreeStatus
  | Merged : WorktreeStatus
  | Closed : WorktreeStatus
  | ChangesSinceMerge : WorktreeStatus
  | Changes : WorktreeStatus
  | Empty : WorktreeStatus
  | Main : WorktreeStatus
  | UncommittedChanges : WorktreeStatus
deriving DecidableEq, Repr

/-- `WorktreeInfo` from `src/utils/git.ts`: one parsed worktree record. -/
structure WorktreeInfo : Type where
  path : String
  head : Option String
  branch : Option String
  bare : Bool
  detached : Bool
deriving DecidableEq, Repr

/-- Oracles for the external commands the engine invokes.  Each field models
the observable behaviour of one collaborator function during one run. -/
structure Env : Type where
  /-- `isGhCliAvailable()` -/
  ghAvailable : Bool
  /-- `isGitHubRepo(cwd)` -/
  isGitHub : Bool
  /-- `getDefaultBranch()` -/
  defaultBranch : String
  /-- `findPRForBranch(branch)`; deterministic within one run -/
  findPR : String → Option PullRequest
  /-- `batchGetPRStatuses(ids)` result map for this run -/
  batch : List Nat → List (Nat × PRStatus)
  /-- `getBranchHeadSha(branch)`: `none` models a failed rev-parse -/
  getBranchHeadSha : String → Option Nat
  /-- `commitExists(sha)` for a real (nonempty) sha -/
  commitExists : Nat → Bool
  /-- `hasNonMergeCommitsAfter(branch, sha)` -/
  hasNonMergeCommitsAfter : String → Nat → Bool
  /-- `hasCommitsNotInBranch(branch, target)` -/
  hasCommitsNotInBranch : String → String → Bool

/-- JS truthiness of a nullable string (`null` and `""` are falsy). -/
def truthyStr : Option String → Bool
  | none => false
  | some s => !s.isEmpty

/-- JS strict equality between the nullable local head sha and a review
head-oid field (`none` models null on the left and undefined/"" on the
right; in JS `null === ""` and `null === undefined` are both false). -/
def shaEqOid : Option Nat → Option Nat → Bool
  | some x, some y => x == y
  | _, _ => false

/-- `getNoPRStatus(branch, defaultBranch)`: no review resolved — "Changes"
if the branch has commits not in the default branch, otherwise "Empty". -/
def getNoPRStatus (env : Env) (branch : String) : WorktreeStatus :=
  if env.hasCommitsNotInBranch branch env.defaultBranch then .Changes else .Empty

/-- Rebuilding a `PRStatus` from a fresh `findPRForBranch` result
(`list.ts` lines 143–148): `headRefOid: freshPR.headRefOid || ""`,
`headRefName: freshPR.headRefName || branch`. -/
def toPRStatus (fresh : PullRequest) (branch : String) : PRStatus :=
  { number := fresh.number
    state := fresh.state
    headRefOid := fresh.headRefOid
    headRefName := fresh.headRefName.getD branch }

/-- Which call site issued a `findPRForBranch` lookup. -/
inductive LookupSite : Type
  | uncached : LookupSite
  | staleName : LookupSite
  | mergedRecheck : LookupSite
deriving DecidableEq, Repr

/-- Outcome of classifying one branch: its status entry, the queued cache
update for this branch (if any), and the single-branch lookups issued. -/
structure ClassifyOut : Type where
  status : WorktreeStatus
  prNumber : Option Nat
  cacheUpdate : Option Nat
  lookups : List (LookupSite × String)
deriving DecidableEq, Repr

/-- The `state === "MERGED"` arm of the per-branch classification
(`list.ts` lines 161–207), starting from a resolved review id `pn` and
fetched status `st`.  For a merged review it compares the branch's local
head with the review's recorded head; when genuine non-merge commits exist
past the review head it re-runs the single-branch lookup once and accepts a
different merged review whose head matches (or is unknown locally, or is
followed only by merge commits), queueing a cache update. -/
def dispatchPR (env : Env) (branch : String) (pn : Nat) (st : PRStatus) :
    ClassifyOut :=
  match st.state with
  | .OPEN => ⟨.Open, some pn, none, []⟩
  | .CLOSED => ⟨.Closed, some pn, none, []⟩
  | .MERGED =>
    let localSha := env.getBranchHeadSha branch
    if shaEqOid localSha st.headRefOid then ⟨.Merged, some pn, none, []⟩
    else
      match st.headRefOid with
      | none => ⟨.Merged, some pn, none, []⟩
      | some oid =>
        if !env.commitExists oid then ⟨.Merged, some pn, none, []⟩
        else if env.hasNonMergeCommitsAfter branch oid then
          match env.findPR branch with
          | some fresh =>
            if fresh.number ≠ pn ∧ fresh.state = .MERGED then
              if shaEqOid localSha fresh.headRefOid then
                ⟨.Merged, some fresh.number, some fresh.number,
                  [(.mergedRecheck, branch)]⟩
              else
                match fresh.headRefOid with
                | none =>
                  ⟨.Merged, some fresh.number, some fresh.number,
                    [(.mergedRecheck, branch)]⟩
                | some q =>
                  if !env.commitExists q then
                    ⟨.Merged, some fresh.number, some fresh.number,
                      [(.mergedRecheck, branch)]⟩
                  else if !env.hasNonMergeCommitsAfter branch q then
                    ⟨.Merged, some fresh.number, some fresh.number,
                      [(.mergedRecheck, branch)]⟩
                  else
                    ⟨.ChangesSinceMerge, some fresh.number, some fresh.number,
                      [(.mergedRecheck, branch)]⟩
            else ⟨.ChangesSinceMerge, some pn, none, [(.mergedRecheck, branch)]⟩
          | none => ⟨.ChangesSinceMerge, some pn, none, [(.mergedRecheck, branch)]⟩
        else ⟨.Merged, some pn, none, []⟩

/-- Per-branch classification (`list.ts` lines 132–207): resolve the cached
id against the batch result, detect a stale cache entry by branch-name
mismatch (retrying the single-branch lookup once and queueing a cache
update), degrade to the no-review status when nothing resolves, otherwise
dispatch on the review state. -/
def classifyBranch (env : Env) (cached : String → Option Nat)
    (stats : Nat → Option PRStatus) (branch : String) : ClassifyOut :=
  match cached branch with
  | none => ⟨getNoPRStatus env branch, none, none, []⟩
  | some n =>
    if n = 0 then ⟨getNoPRStatus env branch, none, none, []⟩
    else
      match stats n with
      | none => ⟨getNoPRStatus env branch, none, none, []⟩
      | some st =>
        if st.headRefName ≠ branch then
          match env.findPR branch with
          | some fresh =>
            if fresh.number = 0 then
              ⟨getNoPRStatus env branch, none, some fresh.number,
                [(.staleName, branch)]⟩
            else
              let d := dispatchPR env branch fresh.number (toPRStatus fresh branch)
              ⟨d.status, d.prNumber, some (d.cacheUpdate.getD fresh.number),
                (.staleName, branch) :: d.lookups⟩
          | none => ⟨getNoPRStatus env branch, none, none, [(.staleName, branch)]⟩
        else
          let d := dispatchPR env branch n st
          ⟨d.status, d.prNumber, d.cacheUpdate, d.lookups⟩

/-! ## The engine pipeline (`getWorktreeStatuses`, `list.ts` lines 61–216)

The single uncached-lookup loop and the single classification loop of the
source each update several accumulators per iteration (a result map, a
pending-cache-update map, and — in our model — the call log); since each
iteration's effect on each accumulator depends only on the branch and the
fixed oracles, the loops are decomposed into one fold per accumulator. -/

/-- Branch names of the branch-bearing (non-bare, non-detached) worktrees:
`worktrees.filter((wt) => wt.branch).map((wt) => wt.branch!)`. -/
def branchesOf (worktrees : List WorktreeInfo) : List String :=
  (worktrees.filter (fun wt => truthyStr wt.branch)).map
    (fun wt => wt.branch.getD "")

/-- The branches submitted to review lookups: everything except the default
branch. -/
def featureBranchesOf (env : Env) (worktrees : List WorktreeInfo) :
    List String :=
  (branchesOf worktrees).filter (fun b => b ≠ env.defaultBranch)

/-- The no-GitHub path: classify every feature branch with its no-review
status. -/
def noPRFold (env : Env) (fb : List String)
    (init : List (String × (WorktreeStatus × Option Nat))) :
    List (String × (WorktreeStatus × Option Nat)) :=
  fb.foldl (fun r b => setKey r b (getNoPRStatus env b, none)) init

/-- Newly discovered branch→id mappings from the uncached-branch loop. -/
def discoverNums (env : Env) (uncached : List String) : List (String × Nat) :=
  uncached.foldl
    (fun m b =>
      match env.findPR b with
      | some pr => setKey m b pr.number
      | none => m)
    []

/-- The cached-numbers map after the uncached-branch loop added the newly
found ids (`cachedNumbers.set(branch, pr.number)`). -/
def cmapAfter (env : Env) (cached0 : List (String × Nat))
    (uncached : List String) : List (String × Nat) :=
  uncached.foldl
    (fun m b =>
      match env.findPR b with
      | some pr => setKey m b pr.number
      | none => m)
    cached0

/-- Lookup-log entries of the uncached-branch loop: one single-branch
lookup per uncached branch. -/
def uncachedLog (uncached : List String) : List (LookupSite × String) :=
  uncached.map (fun b => (.uncached, b))

/-- First-occurrence deduplication, as JS `Array.from(new Set(...))`. -/
def dedupFirst (l : List Nat) : List Nat :=
  (l.foldl (fun acc x => if x ∈ acc then acc else acc ++ [x]) [])

/-- Result-map component of the classification loop. -/
def classifyFoldRes (env : Env) (cached : String → Option Nat)
    (stats : Nat → Option PRStatus) (fb : List String)
    (init : List (String × (WorktreeStatus × Option Nat))) :
    List (String × (WorktreeStatus × Option Nat)) :=
  fb.foldl
    (fun r b =>
      let out := classifyBranch env cached stats b
      setKey r b (out.status, out.prNumber))
    init

/-- Pending-cache-update component of the classification loop. -/
def classifyFoldCU (env : Env) (cached : String → Option Nat)
    (stats : Nat → Option PRStatus) (fb : List String) :
    List (String × Nat) :=
  fb.foldl
    (fun cu b =>
      match (classifyBranch env cached stats b).cacheUpdate with
      | some v => setKey cu b v
      | none => cu)
    []

/-- Lookup-log component of the classification loop. -/
def classifyFoldLog (env : Env) (cached : String → Option Nat)
    (stats : Nat → Option PRStatus) (fb : List String) :
    List (LookupSite × String) :=
  fb.foldl (fun lg b => lg ++ (classifyBranch env cached stats b).lookups) []

/-- Full output of one engine run: the status map, the cache file after the
run's writes, and the run's external-call record. -/
structure EngineOut : Type where
  result : List (String × (WorktreeStatus × Option Nat))
  file : CacheFile
  lookups : List (LookupSite × String)
  batchCalls : List (List Nat)
  cacheQueries : List (List String)
deriving Repr

/-- The initial result map: the default branch's worktree (when present) is
immediately classified `Main`. -/
def mainResult0 (env : Env) (worktrees : List WorktreeInfo) :
    List (String × (WorktreeStatus × Option Nat)) :=
  if (branchesOf worktrees).contains env.defaultBranch then
    [(env.defaultBranch, (.Main, none))]
  else []

/-- The feature branches with no cached review id. -/
def uncachedOf (env : Env) (file : CacheFile)
    (worktrees : List WorktreeInfo) : List String :=
  (featureBranchesOf env worktrees).filter
    (fun b =>
      !hasKey (getCachedPRNumbers (featureBranchesOf env worktrees) file) b)

/-- The cached-id map after the uncached-branch lookups. -/
def cmapOf (env : Env) (file : CacheFile) (worktrees : List WorktreeInfo) :
    List (String × Nat) :=
  cmapAfter env (getCachedPRNumbers (featureBranchesOf env worktrees) file)
    (uncachedOf env file worktrees)

/-- The de-duplicated id list submitted to the batch fetch. -/
def allPRNumbersOf (env : Env) (file : CacheFile)
    (worktrees : List WorktreeInfo) : List Nat :=
  dedupFirst ((cmapOf env file worktrees).map Prod.snd)

/-- The GitHub path of the engine (cache resolution, batch fetch,
classification, cache writes). -/
def engineMainPath (env : Env) (file : CacheFile)
    (worktrees : List WorktreeInfo) : EngineOut :=
  let featureBranches := featureBranchesOf env worktrees
  let uncached := uncachedOf env file worktrees
  let newNums := discoverNums env uncached
  let file1 := if newNums.isEmpty then file
    else updateCachedPRNumbers newNums file
  let allPRNumbers := allPRNumbersOf env file worktrees
  let cached := lookupKey (cmapOf env file worktrees)
  let stats := lookupKey (env.batch allPRNumbers)
  let res := classifyFoldRes env cached stats featureBranches
    (mainResult0 env worktrees)
  let cu := classifyFoldCU env cached stats featureBranches
  let file2 := if cu.isEmpty then file1 else updateCachedPRNumbers cu file1
  ⟨res, file2,
    uncachedLog uncached ++ classifyFoldLog env cached stats featureBranches,
    [allPRNumbers], [featureBranches]⟩

/-- `getWorktreeStatuses(worktrees)`: the status-reconciliation engine.

1. keep branch-bearing worktrees; classify the default branch `Main`;
2. if gh is unavailable or the remote is not GitHub, classify every
   feature branch with its no-review status and stop;
3. read cached ids for the feature branches, look up the uncached ones
   individually, persist newly found ids once;
4. batch-fetch the states of all known ids in one call;
5. classify each feature branch (`classifyBranch`);
6. persist queued stale-cache corrections once. -/
def getWorktreeStatuses (env : Env) (file : CacheFile)
    (worktrees : List WorktreeInfo) : EngineOut :=
  if (branchesOf worktrees).isEmpty then ⟨[], file, [], [], []⟩
  else if (featureBranchesOf env worktrees).isEmpty then
    ⟨mainResult0 env worktrees, file, [], [], []⟩
  else if !(env.isGitHub && env.ghAvailable) then
    ⟨noPRFold env (featureBranchesOf env worktrees) (mainResult0 env worktrees),
      file, [], [], []⟩
  else engineMainPath env file worktrees

/-! ## Local commit graphs and the git ancestry queries
    (`src/utils/git.ts`: `commitExists`, `isAncestor`,
    `hasNonMergeCommitsAfter`)

A local repository's commit graph is a list `g` of parent lists: commit `i`
has parents `g[i]`.  Git history is acyclic, so commits are indexed in a
topological order: every parent of `i` is smaller than `i`
(`validGraph`). -/

/-- Parents of commit `n` (no parents outside the graph). -/
def parentsOf (g : List (List Nat)) (n : Nat) : List Nat := g.getD n []

/-- Commit indices respect a topological order. -/
def validGraph (g : List (List Nat)) : Prop :=
  ∀ i, i < g.length → ∀ p ∈ parentsOf g i, p < i

instance (g : List (List Nat)) : Decidable (validGraph g) := by
  unfold validGraph; infer_instance

/-- Fuelled reachability along parent links: `b` is `a` or an ancestor of
`a`.  On a valid graph, fuel `a + 1` is always enough. -/
def reachesF (g : List (List Nat)) : Nat → Nat → Nat → Bool
  | 0, _, _ => false
  | fuel + 1, a, b => a == b || (parentsOf g a).any (fun p => reachesF g fuel p b)

/-- `reaches g a b`: commit `b` is reachable from commit `a` by following
parent links (i.e. `b` is an ancestor of `a` or equal to it). -/
def reaches (g : List (List Nat)) (a b : Nat) : Bool :=
  reachesF g (a + 1) a b

theorem parentsOf_lt (g : List (List Nat)) (hg : validGraph g) (a p : Nat)
    (hp : p ∈ parentsOf g a) : p < a := by
  by_cases ha : a < g.length
  · exact hg a ha p hp
  · exfalso
    have : parentsOf g a = [] := by
      unfold parentsOf
      exact List.getD_eq_default _ _ (Nat.le_of_not_lt ha)
    rw [this] at hp
    cases hp

theorem any_congrF {α : Type} (l : List α) (p q : α → Bool)
    (h : ∀ x ∈ l, p x = q x) : l.any p = l.any q := by
  induction l with
  | nil => rfl
  | cons x xs ih =>
    simp only [List.any_cons]
    rw [h x (List.mem_cons_self x xs), ih (fun y hy => h y (List.mem_cons_of_mem x hy))]

/-- Any two sufficient fuels compute the same reachability on a valid
graph. -/
theorem reachesF_fuel (g : List (List Nat)) (hg : validGraph g) :
    ∀ a f1 f2 b, a < f1 → a < f2 → reachesF g f1 a b = reachesF g f2 a b := by
  intro a
  induction a using Nat.strong_induction_on with
  | _ a ih =>
    intro f1 f2 b h1 h2
    match f1, f2 with
    | f1' + 1, f2' + 1 =>
      simp only [reachesF]
      congr 1
      apply any_congrF
      intro p hp
      have hpa : p < a := parentsOf_lt g hg a p hp
      exact ih p hpa f1' f2' b
        (Nat.lt_of_lt_of_le hpa (Nat.lt_succ_iff.mp h1))
        (Nat.lt_of_lt_of_le hpa (Nat.lt_succ_iff.mp h2))

@[simp] theorem reaches_self (g : List (List Nat)) (a : Nat) :
    reaches g a a = true := by
  simp [reaches, reachesF]

/-- Transitivity of ancestry on a valid graph. -/
theorem reaches_trans (g : List (List Nat)) (hg : validGraph g) :
    ∀ a b c, reaches g a b = true → reaches g b c = true →
      reaches g a c = true := by
  intro a
  induction a using Nat.strong_induction_on with
  | _ a ih =>
    intro b c hab hbc
    unfold reaches reachesF at hab
    rcases Bool.or_eq_true_iff.mp hab with h | h
    · have : a = b := by simpa using h
      subst this
      exact hbc
    · rcases List.any_eq_true.mp h with ⟨p, hp, hpb⟩
      have hpa : p < a := parentsOf_lt g hg a p hp
      have hpb' : reaches g p b = true := by
        rw [reachesF_fuel g hg p a (p + 1) b hpa (Nat.lt_succ_self p)] at hpb
        exact hpb
      have hpc : reaches g p c = true := ih p hpa b c hpb' hbc
      unfold reaches reachesF
      apply Bool.or_eq_true_iff.mpr
      right
      apply List.any_eq_true.mpr
      refine ⟨p, hp, ?_⟩
      rw [reachesF_fuel g hg p a (p + 1) c hpa (Nat.lt_succ_self p)]
      exact hpc

/-- `commitExists(sha)` against a local graph: `git cat-file -t` succeeds
exactly for the commits present locally. -/
def repoCommitExists (g : List (List Nat)) (n : Nat) : Bool :=
  n < g.length

/-- `hasNonMergeCommitsAfter(branch, sha)` against a local graph and branch
heads: `git log --no-merges sha..refs/heads/branch` prints something iff
some commit is reachable from the branch head but not from `sha` and has at
most one parent; the git call fails (returning false) when the branch ref
or `sha` is unknown. -/
def repoHasNonMergeCommitsAfter (g : List (List Nat))
    (heads : List (String × Nat)) (branch : String) (sha : Nat) : Bool :=
  match lookupKey heads branch with
  | none => false
  | some h =>
    if sha < g.length then
      (List.range g.length).any
        (fun c => reaches g h c && !reaches g sha c
          && (parentsOf g c).length ≤ 1)
    else false

/-! ## The `list` post-pass (`list.ts` lines 287–305)

Building the rendered items from the worktree list and the engine's status
map, with the uncommitted-changes override. -/

/-- `WorktreeListItem` of `src/commands/list.ts`. -/
structure WorktreeListItem : Type where
  name : String
  path : String
  branch : Option String
  status : Option WorktreeStatus
  prNumber : Option Nat
deriving DecidableEq, Repr

/-- `getDisplayName(wt)`: last component of the worktree path. -/
def getDisplayName (wt : WorktreeInfo) : String :=
  (wt.path.splitOn "/").getLastD ""

/-- One item of the `list` output: look up the branch's status entry, then
apply the dirty override — a worktree with uncommitted changes must not be
reported as `Merged` (nor `Empty` / `Changes`).  `dirty` models
`hasUncommittedChanges(wt.path)`. -/
def buildItem (statuses : String → Option (WorktreeStatus × Option Nat))
    (dirty : String → Bool) (wt : WorktreeInfo) : WorktreeListItem :=
  let statusInfo :=
    if truthyStr wt.branch then statuses (wt.branch.getD "") else none
  let status0 := statusInfo.map Prod.fst
  let status :=
    if (status0 == some .Merged || status0 == some .Empty
        || status0 == some .Changes) && dirty wt.path then
      some WorktreeStatus.UncommittedChanges
    else status0
  { name := getDisplayName wt
    path := wt.path
    branch := wt.branch
    status := status
    prNumber := statusInfo.bind Prod.snd }

/-- The item list built by `list`. -/
def buildItems (statuses : String → Option (WorktreeStatus × Option Nat))
    (dirty : String → Bool) (worktrees : List WorktreeInfo) :
    List WorktreeListItem :=
  worktrees.map (buildItem statuses dirty)

/-! ## The porcelain worktree-list parser
    (`src/utils/git.ts`: `listWorktrees`, lines 138–172)

The source splits the `git worktree list --porcelain` output on newlines
and folds over the lines, starting a new record at every `worktree ` line.
Lines are modelled as lists of characters (`Line`), so the `startsWith` /
`substring` logic embeds directly. -/

/-- One line of process output. -/
abbrev Line := List Char

/-- `line.startsWith(p)`. -/
def startsWithL (p s : Line) : Bool := p.isPrefixOf s

/-- JS `String.prototype.replace(needle, repl)` with a string pattern:
replaces only the first occurrence. -/
def replaceFirstL (needle repl : Line) : Line → Line
  | [] => if needle.isEmpty then repl else []
  | c :: rest =>
    if needle.isPrefixOf (c :: rest) then repl ++ (c :: rest).drop needle.length
    else c :: replaceFirstL needle repl rest

/-- The in-progress record (`current`, typed `Partial<WorktreeInfo>` in the source); `head` stays
unset until a `HEAD ` line arrives. -/
structure CurrentWt : Type where
  path : Option Line
  head : Option Line
  branch : Option Line
  bare : Bool
  detached : Bool
deriving DecidableEq, Repr

/-- `current = {}` at the start of the fold. -/
def emptyCurrent : CurrentWt := ⟨none, none, none, false, false⟩

/-- `current = { path, branch: null, bare: false, detached: false }` after
a `worktree ` line (the `head` field is left undefined). -/
def freshCurrent (p : Line) : CurrentWt := ⟨some p, none, none, false, false⟩

/-- JS truthiness of `current.path` (`undefined` and `""` are falsy). -/
def pushGuard (cur : CurrentWt) : Bool :=
  match cur.path with
  | none => false
  | some p => !p.isEmpty

/-- `current as WorktreeInfo` at push time. -/
def currentToInfo (cur : CurrentWt) : WorktreeInfo :=
  { path := (cur.path.getD []).asString
    head := cur.head.map List.asString
    branch := cur.branch.map List.asString
    bare := cur.bare
    detached := cur.detached }

/-- The parser fold of `listWorktrees`: each `worktree ` line pushes the
previous record (when it has a truthy path) and starts a new one; `HEAD `,
`branch `, `bare` and `detached` lines update the current record; other
lines (in particular the blank separators) are ignored.  The final record
is pushed at end of input. -/
def parseGo : List Line → CurrentWt → List WorktreeInfo
  | [], cur => if pushGuard cur then [currentToInfo cur] else []
  | l :: ls, cur =>
    if startsWithL "worktree ".data l then
      (if pushGuard cur then [currentToInfo cur] else [])
        ++ parseGo ls (freshCurrent (l.drop 9))
    else if startsWithL "HEAD ".data l then
      parseGo ls { cur with head := some (l.drop 5) }
    else if startsWithL "branch ".data l then
      parseGo ls
        { cur with branch := some (replaceFirstL "refs/heads/".data [] (l.drop 7)) }
    else if l = "bare".data then parseGo ls { cur with bare := true }
    else if l = "detached".data then parseGo ls { cur with detached := true }
    else parseGo ls cur

/-- `listWorktrees`: an empty list on command failure, otherwise the parser
fold over the output's lines starting from an empty record. -/
def listWorktrees (cmdOk : Bool) (lines : List Line) : List WorktreeInfo :=
  if cmdOk then parseGo lines emptyCurrent else []

/-! ### The record grammar of the porcelain format

A record begins with a path line, optionally followed by a head-commit
line, and at most one of a branch-ref line, a `bare` marker, or a
`detached` marker; records are separated by blank lines, and the final
record may end at end-of-input with no terminating marker. -/

/-- The optional third line of a record. -/
inductive WtMarker : Type
  | branchRef : Line → WtMarker
  | bareMark : WtMarker
  | detachedMark : WtMarker
deriving DecidableEq, Repr

/-- One grammatical record. -/
structure WtRecord : Type where
  path : Line
  head : Option Line
  marker : Option WtMarker
deriving DecidableEq, Repr

/-- The lines a record prints as. -/
def renderRecord (r : WtRecord) : List Line :=
  ["worktree ".data ++ r.path]
    ++ (match r.head with
        | some h => ["HEAD ".data ++ h]
        | none => [])
    ++ (match r.marker with
        | some (.branchRef b) => ["branch refs/heads/".data ++ b]
        | some .bareMark => ["bare".data]
        | some .detachedMark => ["detached".data]
        | none => [])

/-- Records joined by blank separator lines; the final record has no
terminator before end-of-input. -/
def renderRecords : List WtRecord → List Line
  | [] => []
  | [r] => renderRecord r
  | r :: rs => renderRecord r ++ [[]] ++ renderRecords rs

/-- The `WorktreeInfo` a record denotes. -/
def recordToInfo (r : WtRecord) : WorktreeInfo :=
  { path := r.path.asString
    head := r.head.map List.asString
    branch :=
      match r.marker with
      | some (.branchRef b) => some b.asString
      | _ => none
    bare := r.marker = some .bareMark
    detached := r.marker = some .detachedMark }

/-- The partial state after the parser has consumed exactly one record's
lines. -/
def currentOfRecord (r : WtRecord) : CurrentWt :=
  { path := some r.path
    head := r.head
    branch :=
      match r.marker with
      | some (.branchRef b) => some b
      | _ => none
    bare := r.marker = some .bareMark
    detached := r.marker = some .detachedMark }

/-! ## Structural lemmas about the per-branch classifier -/

theorem dispatchPR_lookups (env : Env) (b : String) (pn : Nat) (st : PRStatus) :
    (dispatchPR env b pn st).lookups = []
      ∨ (dispatchPR env b pn st).lookups = [(.mergedRecheck, b)] := by
  unfold dispatchPR
  rcases st.state <;> (repeat' split) <;> (try simp_all) <;>
    (repeat' split) <;> simp_all

theorem dispatchPR_cacheUpdate (env : Env) (b : String) (pn : Nat)
    (st : PRStatus) :
    (dispatchPR env b pn st).cacheUpdate = none
      ∨ ∃ fr, env.findPR b = some fr
          ∧ (dispatchPR env b pn st).cacheUpdate = some fr.number := by
  unfold dispatchPR
  rcases st.state <;> (repeat' split) <;> (try simp_all) <;>
    (repeat' split) <;> simp_all

theorem classifyBranch_lookups (env : Env) (cached : String → Option Nat)
    (stats : Nat → Option PRStatus) (b : String) :
    ∀ e ∈ (classifyBranch env cached stats b).lookups,
      (e.1 = .staleName ∨ e.1 = .mergedRecheck) ∧ e.2 = b := by
  intro e he
  unfold classifyBranch at he
  rcases hc : cached b with _ | n <;> rw [hc] at he
  · simp only at he
    cases he
  · simp only at he
    split at he
    · cases he
    · rcases hs : stats n with _ | st <;> rw [hs] at he
      · simp only at he
        cases he
      · simp only at he
        split at he
        · rcases hf : env.findPR b with _ | fresh <;> rw [hf] at he
          · simp only [List.mem_singleton] at he
            subst he
            exact ⟨Or.inl rfl, rfl⟩
          · simp only at he
            split at he
            · simp only [List.mem_singleton] at he
              subst he
              exact ⟨Or.inl rfl, rfl⟩
            · simp only [List.mem_cons] at he
              rcases he with he | he
              · subst he
                exact ⟨Or.inl rfl, rfl⟩
              · rcases dispatchPR_lookups env b fresh.number (toPRStatus fresh b)
                  with hl | hl <;> rw [hl] at he
                · cases he
                · simp only [List.mem_singleton] at he
                  subst he
                  exact ⟨Or.inr rfl, rfl⟩
        · rcases dispatchPR_lookups env b n st with hl | hl <;>
            simp only at he <;> rw [hl] at he
          · cases he
          · simp only [List.mem_singleton] at he
            subst he
            exact ⟨Or.inr rfl, rfl⟩

/-- The acceptance condition of the merged-divergence recheck (`list.ts`
lines 180–193): the fresh review is a different, merged one, and its head
matches the local head, or is unknown locally (absent or not a local
commit), or is followed only by merge commits. -/
def freshAccepts (env : Env) (b : String) (pn : Nat) (fresh : PullRequest) :
    Bool :=
  (fresh.number != pn && fresh.state == .MERGED)
    && (shaEqOid (env.getBranchHeadSha b) fresh.headRefOid
        || (match fresh.headRefOid with
            | none => true
            | some q => !env.commitExists q || !env.hasNonMergeCommitsAfter b q))

/-- Full characterization of the merged-divergence recheck: when the
resolved review is merged, its head exists locally but differs from the
local head, and non-merge commits follow it, the dispatch re-runs the
single-branch lookup and resolves by `freshAccepts`. -/
theorem dispatchPR_merged_recheck (env : Env) (b : String) (pn : Nat)
    (st : PRStatus) (p : Nat) (hmerged : st.state = .MERGED)
    (hoid : st.headRefOid = some p)
    (hsha : shaEqOid (env.getBranchHeadSha b) (some p) = false)
    (hex : env.commitExists p = true)
    (hnmc : env.hasNonMergeCommitsAfter b p = true) :
    dispatchPR env b pn st
      = match env.findPR b with
        | some fresh =>
          if freshAccepts env b pn fresh then
            ⟨.Merged, some fresh.number, some fresh.number,
              [(.mergedRecheck, b)]⟩
          else if fresh.number ≠ pn ∧ fresh.state = .MERGED then
            ⟨.ChangesSinceMerge, some fresh.number, some fresh.number,
              [(.mergedRecheck, b)]⟩
          else ⟨.ChangesSinceMerge, some pn, none, [(.mergedRecheck, b)]⟩
        | none => ⟨.ChangesSinceMerge, some pn, none, [(.mergedRecheck, b)]⟩ := by
  unfold dispatchPR
  rw [hmerged]
  simp only [hoid, hsha, Bool.false_eq_true, if_false, hex, Bool.not_true,
    hnmc, if_true]
  rcases env.findPR b with _ | fresh
  · rfl
  · simp only
    by_cases hcond : fresh.number ≠ pn ∧ fresh.state = .MERGED
    · rw [if_pos hcond]
      by_cases hshaF : shaEqOid (env.getBranchHeadSha b) fresh.headRefOid = true
      · have hacc : freshAccepts env b pn fresh = true := by
          unfold freshAccepts
          simp [hcond.1, hcond.2, hshaF]
        rw [if_pos hshaF, if_pos hacc]
      · rw [if_neg hshaF]
        rcases hfo : fresh.headRefOid with _ | q
        · have hacc : freshAccepts env b pn fresh = true := by
            unfold freshAccepts
            simp [hcond.1, hcond.2, hfo]
          rw [if_pos hacc]
        · by_cases hce : env.commitExists q = true
          · by_cases hnm : env.hasNonMergeCommitsAfter b q = true
            · have hacc : freshAccepts env b pn fresh = false := by
                unfold freshAccepts
                simp [hfo, hce, hnm]
                intro _ _
                exact Bool.eq_false_iff.mpr
                  (fun hc => by rw [hfo] at hshaF; exact hshaF hc)
              rw [if_neg (by simp [hacc]), if_pos hcond]
              simp [hce, hnm]
            · have hnm' : env.hasNonMergeCommitsAfter b q = false :=
                Bool.eq_false_iff.mpr hnm
              have hacc : freshAccepts env b pn fresh = true := by
                unfold freshAccepts
                simp [hcond.1, hcond.2, hfo, hnm']
              rw [if_pos hacc]
              simp [hce, hnm']
          · have hce' : env.commitExists q = false := Bool.eq_false_iff.mpr hce
            have hacc : freshAccepts env b pn fresh = true := by
              unfold freshAccepts
              simp [hcond.1, hcond.2, hfo, hce']
            rw [if_pos hacc]
            simp [hce']
    · rw [if_neg hcond]
      have hacc : freshAccepts env b pn fresh = false := by
        unfold freshAccepts
        by_cases hA : fresh.number = pn
        · simp [hA]
        · have hB : fresh.state ≠ PRState.MERGED := fun hB => hcond ⟨hA, hB⟩
          simp [hA, hB]
      rw [if_neg (by simp [hacc]), if_neg hcond]

/-- When the cached id resolves against the batch result and the fetched
review's branch name matches the worktree branch, classification is the
plain dispatch on the fetched status. -/
theorem classifyBranch_resolved (env : Env) (cached : String → Option Nat)
    (stats : Nat → Option PRStatus) (b : String) (n : Nat) (st : PRStatus)
    (hc : cached b = some n) (hn : n ≠ 0) (hs : stats n = some st)
    (hname : st.headRefName = b) :
    classifyBranch env cached stats b = dispatchPR env b n st := by
  unfold classifyBranch
  rw [hc]
  simp only [if_neg hn, hs, hname, ne_eq, not_true_eq_false, if_neg,
    ite_false]

/-- Claim C1: for a branch whose resolved review state is Merged, whose
local head differs from the review's recorded head commit, where that head
exists locally and non-merge commits follow it, the engine re-runs the
single-branch lookup exactly once; if the lookup returns a different merged
review whose head equals the local head, or is unknown locally, or is
followed only by merge commits (`freshAccepts`), the branch is classified
Merged with the newer review's id and a cache update is queued for it;
otherwise the branch is classified ChangesSinceMerge. -/
theorem merged_divergence_recheck (env : Env) (cached : String → Option Nat)
    (stats : Nat → Option PRStatus) (b : String) (n : Nat) (st : PRStatus)
    (p : Nat) (hc : cached b = some n) (hn : n ≠ 0) (hs : stats n = some st)
    (hname : st.headRefName = b) (hmerged : st.state = .MERGED)
    (hoid : st.headRefOid = some p)
    (hsha : shaEqOid (env.getBranchHeadSha b) (some p) = false)
    (hex : env.commitExists p = true)
    (hnmc : env.hasNonMergeCommitsAfter b p = true) :
    (classifyBranch env cached stats b).lookups = [(.mergedRecheck, b)]
      ∧ (∀ fresh, env.findPR b = some fresh →
          freshAccepts env b n fresh = true →
          classifyBranch env cached stats b
            = ⟨.Merged, some fresh.number, some fresh.number,
                [(.mergedRecheck, b)]⟩)
      ∧ (∀ fresh, env.findPR b = some fresh →
          freshAccepts env b n fresh = false →
          (classifyBranch env cached stats b).status = .ChangesSinceMerge)
      ∧ (env.findPR b = none →
          (classifyBranch env cached stats b).status = .ChangesSinceMerge) := by
  have hkey : classifyBranch env cached stats b = dispatchPR env b n st :=
    classifyBranch_resolved env cached stats b n st hc hn hs hname
  have hdisp := dispatchPR_merged_recheck env b n st p hmerged hoid hsha hex hnmc
  rw [hkey, hdisp]
  refine ⟨?_, ?_, ?_, ?_⟩
  · rcases env.findPR b with _ | fresh
    · rfl
    · simp only
      split
      · rfl
      · split <;> rfl
  · intro fresh hf hacc
    rw [hf]
    simp only [if_pos hacc]
  · intro fresh hf hacc
    rw [hf]
    simp only [hacc, Bool.false_eq_true, if_false]
    split <;> rfl
  · intro hf
    rw [hf]

/-- Concrete environment for claim C1's witness: local head 5, stale merged
review 7 with head 3, fresh merged review 9 with head 5. -/
def envC1 : Env :=
  { ghAvailable := true
    isGitHub := true
    defaultBranch := "main"
    findPR := fun b =>
      if b = "feature/y" then some ⟨9, .MERGED, some 5, some "feature/y"⟩
      else none
    batch := fun _ => []
    getBranchHeadSha := fun b => if b = "feature/y" then some 5 else none
    commitExists := fun _ => true
    hasNonMergeCommitsAfter := fun _ sha => sha = 3
    hasCommitsNotInBranch := fun _ _ => true }

/-- Cached map for claim C1's witness. -/
def cachedC1 : String → Option Nat :=
  fun b => if b = "feature/y" then some 7 else none

/-- Batch-result map for claim C1's witness. -/
def statsC1 : Nat → Option PRStatus :=
  fun k => if k = 7 then some ⟨7, .MERGED, some 3, "feature/y"⟩ else none

/-- Witness for claim C1: concrete run where the stale merged review 7 is
superseded by fresh merged review 9 whose head matches the local head. -/
theorem merged_divergence_recheck_witness :
    (classifyBranch envC1 cachedC1 statsC1 "feature/y").lookups
        = [(.mergedRecheck, "feature/y")]
      ∧ classifyBranch envC1 cachedC1 statsC1 "feature/y"
          = ⟨.Merged, some 9, some 9, [(.mergedRecheck, "feature/y")]⟩ := by
  have h := merged_divergence_recheck envC1 cachedC1 statsC1 "feature/y" 7
    ⟨7, .MERGED, some 3, "feature/y"⟩ 3 (by decide) (by decide) (by decide)
    (by decide) (by decide) (by decide) (by decide) (by decide) (by decide)
  refine ⟨h.1, ?_⟩
  exact h.2.1 ⟨9, .MERGED, some 5, some "feature/y"⟩ (by decide) (by decide)

/-- If the local branch head is reachable from `sha` (i.e. the local head
is an ancestor of `sha`), the range `sha..branch` is empty, so
`hasNonMergeCommitsAfter` is false — whatever the merge structure. -/
theorem repoHasNonMergeCommitsAfter_ancestor (g : List (List Nat))
    (heads : List (String × Nat)) (branch : String) (l p : Nat)
    (hg : validGraph g) (hl : lookupKey heads branch = some l)
    (hanc : reaches g p l = true) :
    repoHasNonMergeCommitsAfter g heads branch p = false := by
  unfold repoHasNonMergeCommitsAfter
  rw [hl]
  show (if p < g.length then
      (List.range g.length).any
        (fun c => reaches g l c && !reaches g p c
          && (parentsOf g c).length ≤ 1)
    else false) = false
  split
  · apply List.any_eq_false.mpr
    intro c _
    by_cases hr : reaches g l c = true
    · have hpc : reaches g p c = true := reaches_trans g hg p l c hanc hr
      simp [hpc]
    · simp [Bool.eq_false_iff.mpr hr]
  · rfl

/-- Claim C2: for a branch whose resolved review state is Merged, whose
review head commit exists locally, and whose local head is an ancestor of
the review head (`reaches g p l`), the classification is Merged — never
ChangesSinceMerge. -/
theorem merged_ancestor_is_merged (g : List (List Nat))
    (heads : List (String × Nat)) (env : Env) (cached : String → Option Nat)
    (stats : Nat → Option PRStatus) (b : String) (n : Nat) (st : PRStatus)
    (p l : Nat) (hg : validGraph g)
    (h1 : env.getBranchHeadSha = lookupKey heads)
    (h2 : env.commitExists = repoCommitExists g)
    (h3 : env.hasNonMergeCommitsAfter = repoHasNonMergeCommitsAfter g heads)
    (hc : cached b = some n) (hn : n ≠ 0) (hs : stats n = some st)
    (hname : st.headRefName = b) (hmerged : st.state = .MERGED)
    (hoid : st.headRefOid = some p) (hex : p < g.length)
    (hl : lookupKey heads b = some l) (hanc : reaches g p l = true) :
    (classifyBranch env cached stats b).status = .Merged := by
  rw [classifyBranch_resolved env cached stats b n st hc hn hs hname]
  unfold dispatchPR
  rw [hmerged]
  simp only [hoid, h1, hl]
  by_cases hlp : l = p
  · simp [shaEqOid, hlp]
  · have hsha : shaEqOid (some l) (some p) = false := by
      simp [shaEqOid, hlp]
    rw [hsha]
    have hce : env.commitExists p = true := by
      rw [h2]
      unfold repoCommitExists
      simp [hex]
    have hnm : env.hasNonMergeCommitsAfter b p = false := by
      rw [h3]
      exact repoHasNonMergeCommitsAfter_ancestor g heads b l p hg hl hanc
    rw [h2] at hce
    rw [h3] at hnm
    simp [h2, h3, hce, hnm]

/-- Commit graph for claim C2's witness: commit 1 is a child of commit 0;
the local head 0 is an ancestor of the review head 1. -/
def graphC2 : List (List Nat) := [[], [0]]

/-- Branch heads for claim C2's witness. -/
def headsC2 : List (String × Nat) := [("feature/x", 0)]

/-- Environment for claim C2's witness, with the git queries interpreted
over `graphC2` and `headsC2`. -/
def envC2 : Env :=
  { ghAvailable := true
    isGitHub := true
    defaultBranch := "main"
    findPR := fun _ => none
    batch := fun _ => []
    getBranchHeadSha := lookupKey headsC2
    commitExists := repoCommitExists graphC2
    hasNonMergeCommitsAfter := repoHasNonMergeCommitsAfter graphC2 headsC2
    hasCommitsNotInBranch := fun _ _ => false }

/-- Witness for claim C2: the reviewer added commit 1 on top of the local
head 0; the branch is still classified Merged. -/
theorem merged_ancestor_is_merged_witness :
    (classifyBranch envC2
      (fun b => if b = "feature/x" then some 4 else none)
      (fun k => if k = 4 then some ⟨4, .MERGED, some 1, "feature/x"⟩ else none)
      "feature/x").status = .Merged := by
  exact merged_ancestor_is_merged graphC2 headsC2 envC2
    (fun b => if b = "feature/x" then some 4 else none)
    (fun k => if k = 4 then some ⟨4, .MERGED, some 1, "feature/x"⟩ else none)
    "feature/x" 4 ⟨4, .MERGED, some 1, "feature/x"⟩ 1 0
    (by decide) rfl rfl rfl (by decide) (by decide) (by decide) (by decide)
    (by decide) (by decide) (by decide) (by decide) (by decide)

/-- Claim C3: a worktree whose branch's computed review state is Merged and
whose working directory has uncommitted changes is reported with the
distinct dirty-override status, never Merged. -/
theorem merged_dirty_override
    (statuses : String → Option (WorktreeStatus × Option Nat))
    (dirty : String → Bool) (worktrees : List WorktreeInfo)
    (wt : WorktreeInfo) (b : String) (pn : Option Nat)
    (hwt : wt ∈ worktrees) (hb : wt.branch = some b)
    (htr : truthyStr wt.branch = true)
    (hst : statuses b = some (.Merged, pn)) (hd : dirty wt.path = true) :
    (buildItem statuses dirty wt).status = some .UncommittedChanges
      ∧ (buildItem statuses dirty wt).status ≠ some .Merged
      ∧ buildItem statuses dirty wt ∈ buildItems statuses dirty worktrees := by
  have hstatus : (buildItem statuses dirty wt).status
      = some WorktreeStatus.UncommittedChanges := by
    unfold buildItem
    rw [htr, hb]
    simp only [Option.getD_some, hst, if_pos, Option.map_some]
    simp [hd]
  refine ⟨hstatus, ?_, ?_⟩
  · rw [hstatus]
    intro h
    cases h
  · exact List.mem_map_of_mem (buildItem statuses dirty) hwt

/-- Witness for claim C3: a merged branch with uncommitted changes is
reported as UncommittedChanges. -/
theorem merged_dirty_override_witness :
    (buildItem (fun b => if b = "feat" then some (.Merged, some 3) else none)
        (fun _ => true) ⟨"/w/feat", some "9", some "feat", false, false⟩).status
      = some .UncommittedChanges
      ∧ (buildItem (fun b => if b = "feat" then some (.Merged, some 3) else none)
          (fun _ => true)
          ⟨"/w/feat", some "9", some "feat", false, false⟩).status
        ≠ some .Merged
      ∧ buildItem (fun b => if b = "feat" then some (.Merged, some 3) else none)
          (fun _ => true) ⟨"/w/feat", some "9", some "feat", false, false⟩
        ∈ buildItems (fun b => if b = "feat" then some (.Merged, some 3) else none)
            (fun _ => true) [⟨"/w/feat", some "9", some "feat", false, false⟩] :=
  merged_dirty_override
    (fun b => if b = "feat" then some (.Merged, some 3) else none)
    (fun _ => true) [⟨"/w/feat", some "9", some "feat", false, false⟩]
    ⟨"/w/feat", some "9", some "feat", false, false⟩ "feat" (some 3)
    (by decide) (by decide) (by decide) (by decide) (by decide)

/-! ## Fold lemmas about the engine loops -/

theorem lookupKey_noPRFold_notMem (env : Env) (fb : List String) (k : String)
    (hk : k ∉ fb) :
    ∀ init, lookupKey (noPRFold env fb init) k = lookupKey init k := by
  unfold noPRFold
  induction fb with
  | nil => intro init; rfl
  | cons x xs ih =>
    intro init
    simp only [List.mem_cons] at hk
    push_neg at hk
    simp only [List.foldl_cons]
    rw [ih hk.2, lookupKey_setKey_ne _ _ _ _ hk.1]

theorem lookupKey_noPRFold_mem (env : Env) (fb : List String) (k : String)
    (hk : k ∈ fb) :
    ∀ init, lookupKey (noPRFold env fb init) k
      = some (getNoPRStatus env k, none) := by
  unfold noPRFold
  induction fb with
  | nil => cases hk
  | cons x xs ih =>
    intro init
    simp only [List.foldl_cons]
    by_cases hx : k ∈ xs
    · exact ih hx _
    · have hkx : k = x := by
        rcases List.mem_cons.mp hk with h | h
        · exact h
        · exact absurd h hx
      subst hkx
      have := lookupKey_noPRFold_notMem env xs k hx (setKey init k (getNoPRStatus env k, none))
      unfold noPRFold at this
      rw [this, lookupKey_setKey_self]

theorem lookupKey_classifyFoldRes_notMem (env : Env)
    (cached : String → Option Nat) (stats : Nat → Option PRStatus)
    (fb : List String) (k : String) (hk : k ∉ fb) :
    ∀ init, lookupKey (classifyFoldRes env cached stats fb init) k
      = lookupKey init k := by
  unfold classifyFoldRes
  induction fb with
  | nil => intro init; rfl
  | cons x xs ih =>
    intro init
    simp only [List.mem_cons] at hk
    push_neg at hk
    simp only [List.foldl_cons]
    rw [ih hk.2, lookupKey_setKey_ne _ _ _ _ hk.1]

theorem lookupKey_classifyFoldRes_mem (env : Env)
    (cached : String → Option Nat) (stats : Nat → Option PRStatus)
    (fb : List String) (k : String) (hk : k ∈ fb) :
    ∀ init, lookupKey (classifyFoldRes env cached stats fb init) k
      = some ((classifyBranch env cached stats k).status,
          (classifyBranch env cached stats k).prNumber) := by
  unfold classifyFoldRes
  induction fb with
  | nil => cases hk
  | cons x xs ih =>
    intro init
    simp only [List.foldl_cons]
    by_cases hx : k ∈ xs
    · exact ih hx _
    · have hkx : k = x := by
        rcases List.mem_cons.mp hk with h | h
        · exact h
        · exact absurd h hx
      subst hkx
      have := lookupKey_classifyFoldRes_notMem env cached stats xs k hx
      unfold classifyFoldRes at this
      rw [this, lookupKey_setKey_self]

theorem classifyFoldLog_mem_aux (env : Env) (cached : String → Option Nat)
    (stats : Nat → Option PRStatus) (fb : List String)
    (e : LookupSite × String) :
    ∀ init,
      e ∈ fb.foldl
        (fun lg b => lg ++ (classifyBranch env cached stats b).lookups) init →
      e ∈ init ∨ ∃ b ∈ fb, e ∈ (classifyBranch env cached stats b).lookups := by
  induction fb with
  | nil => intro init he; exact Or.inl he
  | cons x xs ih =>
    intro init he
    simp only [List.foldl_cons] at he
    rcases ih _ he with h | ⟨b, hb, hbe⟩
    · rcases List.mem_append.mp h with h | h
      · exact Or.inl h
      · exact Or.inr ⟨x, List.mem_cons_self x xs, h⟩
    · exact Or.inr ⟨b, List.mem_cons_of_mem x hb, hbe⟩

theorem classifyFoldLog_mem (env : Env) (cached : String → Option Nat)
    (stats : Nat → Option PRStatus) (fb : List String)
    (e : LookupSite × String)
    (he : e ∈ classifyFoldLog env cached stats fb) :
    ∃ b ∈ fb, e ∈ (classifyBranch env cached stats b).lookups := by
  rcases classifyFoldLog_mem_aux env cached stats fb e [] he with h | h
  · cases h
  · exact h

theorem mem_branchesOf (worktrees : List WorktreeInfo) (wt : WorktreeInfo)
    (b : String) (hwt : wt ∈ worktrees) (hb : wt.branch = some b)
    (htr : truthyStr wt.branch = true) : b ∈ branchesOf worktrees := by
  unfold branchesOf
  have hmem : wt ∈ worktrees.filter (fun wt => truthyStr wt.branch) :=
    List.mem_filter.mpr ⟨hwt, htr⟩
  have : b = wt.branch.getD "" := by rw [hb]; rfl
  rw [this]
  exact List.mem_map_of_mem _ hmem

theorem not_mem_featureBranchesOf (env : Env) (worktrees : List WorktreeInfo) :
    env.defaultBranch ∉ featureBranchesOf env worktrees := by
  intro h
  have := (List.mem_filter.mp h).2
  simp at this

theorem mem_featureBranchesOf_ne (env : Env) (worktrees : List WorktreeInfo)
    (b : String) (hb : b ∈ featureBranchesOf env worktrees) :
    b ≠ env.defaultBranch := by
  have := (List.mem_filter.mp hb).2
  simpa using this

/-- Claim C4: a worktree on the default branch is always reported `Main`,
whatever the cache file and the remote review state; no single-branch
lookup is ever issued for the default branch, and the default branch is
excluded from every cache query feeding the batch fetch. -/
theorem default_branch_is_main (env : Env) (file : CacheFile)
    (worktrees : List WorktreeInfo) (wt : WorktreeInfo)
    (hwt : wt ∈ worktrees) (hb : wt.branch = some env.defaultBranch)
    (htr : truthyStr wt.branch = true) :
    lookupKey (getWorktreeStatuses env file worktrees).result env.defaultBranch
        = some (.Main, none)
      ∧ (∀ e ∈ (getWorktreeStatuses env file worktrees).lookups,
          e.2 ≠ env.defaultBranch)
      ∧ (∀ q ∈ (getWorktreeStatuses env file worktrees).cacheQueries,
          env.defaultBranch ∉ q) := by
  have hmem : env.defaultBranch ∈ branchesOf worktrees :=
    mem_branchesOf worktrees wt env.defaultBranch hwt hb htr
  have hne : (branchesOf worktrees).isEmpty = false := by
    rw [List.isEmpty_eq_false]
    exact List.ne_nil_of_mem hmem
  have hcont : (branchesOf worktrees).contains env.defaultBranch = true :=
    List.elem_eq_true_of_mem hmem
  have hfd : env.defaultBranch ∉ featureBranchesOf env worktrees :=
    not_mem_featureBranchesOf env worktrees
  have hmain : lookupKey (mainResult0 env worktrees) env.defaultBranch
      = some (.Main, none) := by
    unfold mainResult0
    rw [hcont]
    simp [lookupKey]
  unfold getWorktreeStatuses
  rw [hne]
  simp only [Bool.false_eq_true, if_false]
  by_cases hfb : (featureBranchesOf env worktrees).isEmpty = true
  · rw [if_pos hfb]
    refine ⟨hmain, ?_, ?_⟩
    · intro e he; cases he
    · intro q hq; cases hq
  · rw [if_neg hfb]
    by_cases hgh : (env.isGitHub && env.ghAvailable) = true
    · rw [if_neg (by simp [hgh])]
      unfold engineMainPath
      simp only
      refine ⟨?_, ?_, ?_⟩
      · rw [lookupKey_classifyFoldRes_notMem env _ _ _ _ hfd]
        exact hmain
      · intro e he
        rcases List.mem_append.mp he with h | h
        · unfold uncachedLog at h
          rcases List.mem_map.mp h with ⟨b, hbu, rfl⟩
          have hbf : b ∈ featureBranchesOf env worktrees :=
            (List.mem_filter.mp hbu).1
          exact mem_featureBranchesOf_ne env worktrees b hbf
        · rcases classifyFoldLog_mem _ _ _ _ _ h with ⟨b, hbf, hbe⟩
          have h2 := (classifyBranch_lookups _ _ _ b e hbe).2
          rw [h2]
          exact mem_featureBranchesOf_ne env worktrees b hbf
      · intro q hq
        simp only [List.mem_singleton] at hq
        subst hq
        exact hfd
    · rw [if_pos (by simp [Bool.eq_false_iff.mpr hgh])]
      refine ⟨?_, ?_, ?_⟩
      · rw [lookupKey_noPRFold_notMem env _ _ hfd]
        exact hmain
      · intro e he; cases he
      · intro q hq; cases hq

/-- Worktree list for the engine-level witnesses: a default-branch worktree
and one feature worktree. -/
def wtsMain : List WorktreeInfo :=
  [⟨"/a/main", some "1", some "main", false, false⟩,
   ⟨"/a/f", some "2", some "feature/y", false, false⟩]

/-- Witness for claim C4: the default branch `main` is reported `Main`, no
lookup mentions it, and it is absent from the cache queries. -/
theorem default_branch_is_main_witness :
    lookupKey (getWorktreeStatuses envC1 (.ok [("main", 3)]) wtsMain).result
        "main" = some (.Main, none)
      ∧ (∀ e ∈ (getWorktreeStatuses envC1 (.ok [("main", 3)]) wtsMain).lookups,
          e.2 ≠ "main")
      ∧ (∀ q ∈ (getWorktreeStatuses envC1
            (.ok [("main", 3)]) wtsMain).cacheQueries, "main" ∉ q) := by
  have h := default_branch_is_main envC1 (.ok [("main", 3)]) wtsMain
    ⟨"/a/main", some "1", some "main", false, false⟩
    (by decide) (by decide) (by decide)
  exact h

theorem mem_featureBranchesOf_intro (env : Env)
    (worktrees : List WorktreeInfo) (b : String)
    (hb : b ∈ branchesOf worktrees) (hne : b ≠ env.defaultBranch) :
    b ∈ featureBranchesOf env worktrees :=
  List.mem_filter.mpr ⟨hb, by simpa using hne⟩

/-- Claim C5: if the review CLI is unavailable or the remote is not GitHub,
every non-default branch-bearing worktree gets its no-review status, and
neither the single-branch lookup nor the batch fetch is invoked. -/
theorem availability_gate (env : Env) (file : CacheFile)
    (worktrees : List WorktreeInfo)
    (hgh : env.isGitHub = false ∨ env.ghAvailable = false) :
    (∀ wt ∈ worktrees, ∀ b, wt.branch = some b →
      truthyStr wt.branch = true → b ≠ env.defaultBranch →
      lookupKey (getWorktreeStatuses env file worktrees).result b
        = some (getNoPRStatus env b, none))
      ∧ (getWorktreeStatuses env file worktrees).lookups = []
      ∧ (getWorktreeStatuses env file worktrees).batchCalls = [] := by
  have hgh' : (env.isGitHub && env.ghAvailable) = false := by
    rcases hgh with h | h <;> simp [h]
  unfold getWorktreeStatuses
  by_cases hbr : (branchesOf worktrees).isEmpty = true
  · rw [if_pos hbr]
    refine ⟨?_, rfl, rfl⟩
    intro wt hwt b hb htr _
    exfalso
    have : b ∈ branchesOf worktrees := mem_branchesOf worktrees wt b hwt hb htr
    rw [List.isEmpty_iff.mp hbr] at this
    cases this
  · rw [if_neg hbr]
    by_cases hfb : (featureBranchesOf env worktrees).isEmpty = true
    · rw [if_pos hfb]
      refine ⟨?_, rfl, rfl⟩
      intro wt hwt b hb htr hbd
      exfalso
      have hbm : b ∈ branchesOf worktrees :=
        mem_branchesOf worktrees wt b hwt hb htr
      have : b ∈ featureBranchesOf env worktrees :=
        mem_featureBranchesOf_intro env worktrees b hbm hbd
      rw [List.isEmpty_iff.mp hfb] at this
      cases this
    · rw [if_neg hfb, if_pos (by simp [hgh'])]
      refine ⟨?_, rfl, rfl⟩
      intro wt hwt b hb htr hbd
      have hbm : b ∈ branchesOf worktrees :=
        mem_branchesOf worktrees wt b hwt hb htr
      have hbf : b ∈ featureBranchesOf env worktrees :=
        mem_featureBranchesOf_intro env worktrees b hbm hbd
      exact lookupKey_noPRFold_mem env _ b hbf _

/-- Environment for claim C5's witness: the review CLI is unavailable. -/
def envC5 : Env :=
  { envC1 with ghAvailable := false }

/-- Witness for claim C5: with gh unavailable, the feature branch gets its
no-review status and no lookups or batch calls happen. -/
theorem availability_gate_witness :
    lookupKey (getWorktreeStatuses envC5 (.ok [("feature/y", 7)]) wtsMain).result
        "feature/y" = some (getNoPRStatus envC5 "feature/y", none)
      ∧ (getWorktreeStatuses envC5 (.ok [("feature/y", 7)]) wtsMain).lookups = []
      ∧ (getWorktreeStatuses envC5
          (.ok [("feature/y", 7)]) wtsMain).batchCalls = [] := by
  have h := availability_gate envC5 (.ok [("feature/y", 7)]) wtsMain
    (Or.inr rfl)
  refine ⟨?_, h.2.1, h.2.2⟩
  exact h.1 ⟨"/a/f", some "2", some "feature/y", false, false⟩ (by decide)
    "feature/y" (by decide) (by decide) (by decide)

/-- Claim C6: when the fetched review is merged but its recorded branch
name does not match the worktree's branch, the cache entry is stale: the
engine performs exactly one stale-retry single-branch lookup (never more —
no loop), and when a review is found it queues a cache update replacing the
cached id and reclassifies from the fresh review's state through the normal
dispatch. -/
theorem stale_cache_retry (env : Env) (cached : String → Option Nat)
    (stats : Nat → Option PRStatus) (b : String) (n : Nat) (st : PRStatus)
    (hc : cached b = some n) (hn : n ≠ 0) (hs : stats n = some st)
    (_hmerged : st.state = .MERGED) (hname : st.headRefName ≠ b) :
    ((classifyBranch env cached stats b).lookups.filter
        (fun e => e.1 = LookupSite.staleName)).length = 1
      ∧ (∀ fresh, env.findPR b = some fresh →
          (classifyBranch env cached stats b).cacheUpdate = some fresh.number
          ∧ (fresh.number ≠ 0 →
              (classifyBranch env cached stats b).status
                  = (dispatchPR env b fresh.number (toPRStatus fresh b)).status
              ∧ (classifyBranch env cached stats b).prNumber
                  = (dispatchPR env b fresh.number
                      (toPRStatus fresh b)).prNumber)) := by
  have hcls : classifyBranch env cached stats b
      = match env.findPR b with
        | some fresh =>
          if fresh.number = 0 then
            ⟨getNoPRStatus env b, none, some fresh.number, [(.staleName, b)]⟩
          else
            let d := dispatchPR env b fresh.number (toPRStatus fresh b)
            ⟨d.status, d.prNumber, some (d.cacheUpdate.getD fresh.number),
              (.staleName, b) :: d.lookups⟩
        | none => ⟨getNoPRStatus env b, none, none, [(.staleName, b)]⟩ := by
    unfold classifyBranch
    rw [hc]
    simp only [if_neg hn, hs]
    rw [if_pos hname]
  rw [hcls]
  rcases hf : env.findPR b with _ | fresh
  · refine ⟨by simp, ?_⟩
    intro fresh hff
    cases hff
  · simp only
    by_cases h0 : fresh.number = 0
    · rw [if_pos h0]
      refine ⟨by simp, ?_⟩
      intro fresh' hff
      injection hff with hff
      subst hff
      exact ⟨rfl, fun hn0 => absurd h0 hn0⟩
    · rw [if_neg h0]
      constructor
      · simp only [List.filter_cons]
        rcases dispatchPR_lookups env b fresh.number (toPRStatus fresh b)
          with hl | hl <;> rw [hl] <;> simp
      · intro fresh' hff
        injection hff with hff
        subst hff
        constructor
        · rcases dispatchPR_cacheUpdate env b fresh.number (toPRStatus fresh b)
            with hcu | ⟨fr, hfr, hcu⟩
          · simp [hcu]
          · rw [hf] at hfr
            injection hfr with hfr
            subst hfr
            simp [hcu]
        · intro _
          exact ⟨rfl, rfl⟩

/-- Environment for claim C6's witness: the cached review 7 belongs to a
different branch, and the fresh lookup finds merged review 9 whose head
matches the local head. -/
def envC6 : Env :=
  { ghAvailable := true
    isGitHub := true
    defaultBranch := "main"
    findPR := fun b =>
      if b = "feature/y" then some ⟨9, .MERGED, some 5, some "feature/y"⟩
      else none
    batch := fun _ => []
    getBranchHeadSha := fun b => if b = "feature/y" then some 5 else none
    commitExists := fun _ => true
    hasNonMergeCommitsAfter := fun _ _ => false
    hasCommitsNotInBranch := fun _ _ => true }

/-- Batch-result map for claim C6's witness: review 7 is merged but its
branch-name field names a different branch. -/
def statsC6 : Nat → Option PRStatus :=
  fun k => if k = 7 then some ⟨7, .MERGED, some 3, "other/branch"⟩ else none

/-- Witness for claim C6: exactly one stale-retry lookup, cache update
queued to the fresh id 9, classification from the fresh review. -/
theorem stale_cache_retry_witness :
    ((classifyBranch envC6 cachedC1 statsC6 "feature/y").lookups.filter
        (fun e => e.1 = LookupSite.staleName)).length = 1
      ∧ (classifyBranch envC6 cachedC1 statsC6 "feature/y").cacheUpdate
          = some 9
      ∧ (classifyBranch envC6 cachedC1 statsC6 "feature/y").status
          = (dispatchPR envC6 "feature/y" 9
              (toPRStatus ⟨9, .MERGED, some 5, some "feature/y"⟩
                "feature/y")).status := by
  have h := stale_cache_retry envC6 cachedC1 statsC6 "feature/y" 7
    ⟨7, .MERGED, some 3, "other/branch"⟩ (by decide) (by decide) (by decide)
    (by decide) (by decide)
  have h2 := h.2 ⟨9, .MERGED, some 5, some "feature/y"⟩ (by decide)
  exact ⟨h.1, h2.1, (h2.2 (by decide)).1⟩

/-- Claim C7: a failed bulk fetch yields an empty map from
`batchGetPRStatuses`, and a branch whose review id has no entry in the
batch result is given its no-review classification — never Merged. -/
theorem batch_failure_degrades (ids : List Nat) (env : Env)
    (cached : String → Option Nat) (stats : Nat → Option PRStatus)
    (b : String) (n : Nat) (hc : cached b = some n) (hs : stats n = none) :
    batchGetPRStatuses ids (Except.error ()) = []
      ∧ (classifyBranch env cached stats b).status = getNoPRStatus env b
      ∧ (classifyBranch env cached stats b).status ≠ .Merged
      ∧ (classifyBranch env cached stats b).prNumber = none := by
  have hnopr : getNoPRStatus env b ≠ WorktreeStatus.Merged := by
    unfold getNoPRStatus
    split <;> intro h <;> cases h
  have hbatch : batchGetPRStatuses ids (Except.error ()) = [] := by
    unfold batchGetPRStatuses
    split <;> rfl
  have hcls : classifyBranch env cached stats b
      = ⟨getNoPRStatus env b, none, none, []⟩ := by
    unfold classifyBranch
    simp only [hc]
    by_cases h0 : n = 0
    · rw [if_pos h0]
    · rw [if_neg h0]
      simp only [hs]
  rw [hcls]
  exact ⟨hbatch, rfl, hnopr, rfl⟩

/-- Witness for claim C7: id 7 is cached but the batch result is empty. -/
theorem batch_failure_degrades_witness :
    batchGetPRStatuses [7, 9] (Except.error ()) = []
      ∧ (classifyBranch envC1 cachedC1 (fun _ => none) "feature/y").status
          = getNoPRStatus envC1 "feature/y"
      ∧ (classifyBranch envC1 cachedC1 (fun _ => none) "feature/y").status
          ≠ .Merged
      ∧ (classifyBranch envC1 cachedC1 (fun _ => none) "feature/y").prNumber
          = none :=
  batch_failure_degrades [7, 9] envC1 cachedC1 (fun _ => none) "feature/y" 7
    (by decide) rfl

/-- Claim C8: a branch→id mapping written through `updateCachedPRNumbers`
is returned by the next run's `getCachedPRNumbers` for that branch, and a
branch that has a cached id is never submitted to the uncached
single-branch-lookup path — its only lookups are the stale-cache ones. -/
theorem cache_roundtrip_no_requery (M : List (String × Nat)) (f : CacheFile)
    (bs : List String) (b : String) (v : Nat) (env : Env) (file : CacheFile)
    (worktrees : List WorktreeInfo) (b2 : String) (hf : f ≠ .noRepo)
    (hnd : (M.map Prod.fst).Nodup) (hbv : (b, v) ∈ M) (hbs : b ∈ bs)
    (hcached : hasKey
      (getCachedPRNumbers (featureBranchesOf env worktrees) file) b2 = true) :
    lookupKey (getCachedPRNumbers bs (updateCachedPRNumbers M f)) b = some v
      ∧ ∀ s, (s, b2) ∈ (getWorktreeStatuses env file worktrees).lookups →
          s ≠ LookupSite.uncached := by
  constructor
  · exact lookupKey_getCachedPRNumbers bs _ b v
      (updateCachedPRNumbers_written M f b v hf hnd hbv) hbs
  · intro s hs
    unfold getWorktreeStatuses at hs
    split at hs
    · cases hs
    · split at hs
      · cases hs
      · split at hs
        · cases hs
        · unfold engineMainPath at hs
          simp only at hs
          rcases List.mem_append.mp hs with h | h
          · exfalso
            unfold uncachedLog at h
            rcases List.mem_map.mp h with ⟨b', hbu, heq⟩
            injection heq with heq1 heq2
            subst heq2
            have := (List.mem_filter.mp hbu).2
            rw [hcached] at this
            cases this
          · rcases classifyFoldLog_mem _ _ _ _ _ h with ⟨b', _, hbe⟩
            rcases (classifyBranch_lookups _ _ _ b' _ hbe).1 with h1 | h1 <;>
              (intro hcon; subst hcon; simp at h1)

/-- Witness for claim C8: the mapping `feature/y → 7` written by one run is
read back by the next, and the cached branch is never uncached-queried. -/
theorem cache_roundtrip_no_requery_witness :
    lookupKey (getCachedPRNumbers ["feature/y"]
        (updateCachedPRNumbers [("feature/y", 7)] (.ok []))) "feature/y"
      = some 7
      ∧ ∀ s, (s, "feature/y")
          ∈ (getWorktreeStatuses envC1 (.ok [("feature/y", 7)]) wtsMain).lookups →
          s ≠ LookupSite.uncached :=
  cache_roundtrip_no_requery [("feature/y", 7)] (.ok []) ["feature/y"]
    "feature/y" 7 envC1 (.ok [("feature/y", 7)]) wtsMain "feature/y"
    (by decide) (by decide) (by decide) (by decide) (by decide)

/-- Claim C10: `updateCachedPRNumbers` is a read-modify-write — every
cached entry whose branch is not a key of the update map keeps its previous
value, and branches in the map get exactly the written value; the write is
never a blank overwrite. -/
theorem cache_update_read_modify_write (M : List (String × Nat))
    (f : CacheFile) (b b' : String) (v : Nat) (hb : b ∉ M.map Prod.fst)
    (hf : f ≠ .noRepo) (hnd : (M.map Prod.fst).Nodup) (hbv : (b', v) ∈ M) :
    lookupKey (loadCache (updateCachedPRNumbers M f)) b
        = lookupKey (loadCache f) b
      ∧ lookupKey (loadCache (updateCachedPRNumbers M f)) b' = some v :=
  ⟨updateCachedPRNumbers_frame M f b hb,
    updateCachedPRNumbers_written M f b' v hf hnd hbv⟩

/-- Witness for claim C10: writing `x → 1` leaves `y → 2` unchanged and
stores `x → 1`. -/
theorem cache_update_read_modify_write_witness :
    lookupKey (loadCache (updateCachedPRNumbers [("x", 1)]
          (.ok [("y", 2)]))) "y"
        = lookupKey (loadCache (.ok [("y", 2)])) "y"
      ∧ lookupKey (loadCache (updateCachedPRNumbers [("x", 1)]
          (.ok [("y", 2)]))) "x" = some 1 :=
  cache_update_read_modify_write [("x", 1)] (.ok [("y", 2)]) "y" "x" 1
    (by decide) (by decide) (by decide) (by decide)

/-! ## Parser step lemmas and the record round-trip -/

theorem startsWithL_append_self (p s : Line) :
    startsWithL p (p ++ s) = true := by
  unfold startsWithL
  induction p with
  | nil => cases s <;> rfl
  | cons c cs ih => simp [List.isPrefixOf, ih]

theorem startsWithL_ne_head (a b : Char) (as bs : Line) (h : ¬ a = b) :
    startsWithL (a :: as) (b :: bs) = false := by
  unfold startsWithL
  simp [List.isPrefixOf, h]

theorem startsWithL_ne_head_append (a b : Char) (as bs t : Line)
    (h : ¬ a = b) : startsWithL (a :: as) ((b :: bs) ++ t) = false := by
  rw [List.cons_append]
  exact startsWithL_ne_head a b as (bs ++ t) h

theorem drop_length_append (p s : Line) : (p ++ s).drop p.length = s :=
  List.drop_left p s

theorem replaceFirstL_self_append (needle repl rest : Line)
    (h : needle ≠ []) :
    replaceFirstL needle repl (needle ++ rest) = repl ++ rest := by
  match needle, h with
  | n :: ntl, _ =>
    show replaceFirstL (n :: ntl) repl ((n :: ntl) ++ rest) = repl ++ rest
    have hpre : (n :: ntl).isPrefixOf ((n :: ntl) ++ rest) = true :=
      startsWithL_append_self (n :: ntl) rest
    rw [show ((n :: ntl) ++ rest) = n :: (ntl ++ rest) from rfl]
    unfold replaceFirstL
    rw [show (n :: (ntl ++ rest)) = (n :: ntl) ++ rest from rfl, hpre]
    simp only [if_true]
    rw [drop_length_append]

theorem parseGo_worktree (p : Line) (ls : List Line) (cur : CurrentWt) :
    parseGo (("worktree ".data ++ p) :: ls) cur
      = (if pushGuard cur then [currentToInfo cur] else [])
        ++ parseGo ls (freshCurrent p) := by
  simp only [parseGo]
  rw [show ("worktree ".data ++ p)
      = ['w', 'o', 'r', 'k', 't', 'r', 'e', 'e', ' '] ++ p from rfl]
  rw [startsWithL_append_self]
  simp only [if_true]
  rw [show (9 : Nat)
      = (['w', 'o', 'r', 'k', 't', 'r', 'e', 'e', ' '] : Line).length from rfl,
    drop_length_append]

theorem parseGo_headLine (h : Line) (ls : List Line) (cur : CurrentWt) :
    parseGo (("HEAD ".data ++ h) :: ls) cur
      = parseGo ls { cur with head := some h } := by
  simp only [parseGo]
  rw [show ("HEAD ".data ++ h) = ['H', 'E', 'A', 'D', ' '] ++ h from rfl]
  rw [startsWithL_ne_head_append _ _ _ _ _ (by decide)]
  rw [startsWithL_append_self]
  simp only [Bool.false_eq_true, if_false, if_true]
  rw [show (5 : Nat) = (['H', 'E', 'A', 'D', ' '] : Line).length from rfl,
    drop_length_append]

theorem parseGo_branchLine (b : Line) (ls : List Line) (cur : CurrentWt) :
    parseGo (("branch refs/heads/".data ++ b) :: ls) cur
      = parseGo ls { cur with branch := some b } := by
  simp only [parseGo]
  rw [show ("branch refs/heads/".data ++ b)
      = ['b', 'r', 'a', 'n', 'c', 'h', ' ']
        ++ (['r', 'e', 'f', 's', '/', 'h', 'e', 'a', 'd', 's', '/'] ++ b)
      from rfl]
  rw [startsWithL_ne_head_append _ _ _ _ _ (by decide),
    startsWithL_ne_head_append _ _ _ _ _ (by decide)]
  rw [startsWithL_append_self]
  simp only [Bool.false_eq_true, if_false, if_true]
  rw [show (7 : Nat)
      = (['b', 'r', 'a', 'n', 'c', 'h', ' '] : Line).length from rfl,
    drop_length_append]
  rw [replaceFirstL_self_append _ _ _ (by decide), List.nil_append]

theorem parseGo_blank (ls : List Line) (cur : CurrentWt) :
    parseGo (([] : Line) :: ls) cur = parseGo ls cur := rfl

theorem parseGo_bare (ls : List Line) (cur : CurrentWt) :
    parseGo ("bare".data :: ls) cur = parseGo ls { cur with bare := true } :=
  rfl

theorem parseGo_detached (ls : List Line) (cur : CurrentWt) :
    parseGo ("detached".data :: ls) cur
      = parseGo ls { cur with detached := true } := rfl

theorem currentToInfo_currentOfRecord (r : WtRecord) :
    currentToInfo (currentOfRecord r) = recordToInfo r := by
  rcases r with ⟨p, h, mk⟩
  rcases mk with _ | mkc
  · rfl
  · rcases mkc <;> rfl

/-- Consuming one rendered record moves the parser from `cur` (emitting it
when its path is truthy) to the record's partial state. -/
theorem parseGo_renderRecord (r : WtRecord) (rest : List Line)
    (cur : CurrentWt) :
    parseGo (renderRecord r ++ rest) cur
      = (if pushGuard cur then [currentToInfo cur] else [])
        ++ parseGo rest (currentOfRecord r) := by
  rcases r with ⟨p, h, mk⟩
  rcases h with _ | hl <;> rcases mk with _ | mkc
  · rw [show renderRecord ⟨p, none, none⟩ ++ rest
        = ("worktree ".data ++ p) :: rest from rfl]
    rw [parseGo_worktree]
    rfl
  · rcases mkc with b | _ | _
    · rw [show renderRecord ⟨p, none, some (.branchRef b)⟩ ++ rest
          = ("worktree ".data ++ p)
            :: ("branch refs/heads/".data ++ b) :: rest from rfl]
      rw [parseGo_worktree, parseGo_branchLine]
      rfl
    · rw [show renderRecord ⟨p, none, some .bareMark⟩ ++ rest
          = ("worktree ".data ++ p) :: "bare".data :: rest from rfl]
      rw [parseGo_worktree, parseGo_bare]
      rfl
    · rw [show renderRecord ⟨p, none, some .detachedMark⟩ ++ rest
          = ("worktree ".data ++ p) :: "detached".data :: rest from rfl]
      rw [parseGo_worktree, parseGo_detached]
      rfl
  · rw [show renderRecord ⟨p, some hl, none⟩ ++ rest
        = ("worktree ".data ++ p) :: ("HEAD ".data ++ hl) :: rest from rfl]
    rw [parseGo_worktree, parseGo_headLine]
    rfl
  · rcases mkc with b | _ | _
    · rw [show renderRecord ⟨p, some hl, some (.branchRef b)⟩ ++ rest
          = ("worktree ".data ++ p) :: ("HEAD ".data ++ hl)
            :: ("branch refs/heads/".data ++ b) :: rest from rfl]
      rw [parseGo_worktree, parseGo_headLine, parseGo_branchLine]
      rfl
    · rw [show renderRecord ⟨p, some hl, some .bareMark⟩ ++ rest
          = ("worktree ".data ++ p) :: ("HEAD ".data ++ hl)
            :: "bare".data :: rest from rfl]
      rw [parseGo_worktree, parseGo_headLine, parseGo_bare]
      rfl
    · rw [show renderRecord ⟨p, some hl, some .detachedMark⟩ ++ rest
          = ("worktree ".data ++ p) :: ("HEAD ".data ++ hl)
            :: "detached".data :: rest from rfl]
      rw [parseGo_worktree, parseGo_headLine, parseGo_detached]
      rfl

theorem pushGuard_currentOfRecord (r : WtRecord) (hp : r.path ≠ []) :
    pushGuard (currentOfRecord r) = true := by
  unfold pushGuard currentOfRecord
  simp [List.isEmpty_eq_false.mpr hp]

/-- The parser fold over rendered records emits the pending record followed
by one `WorktreeInfo` per rendered record. -/
theorem parseGo_renderRecords (rs : List WtRecord) :
    ∀ cur : CurrentWt, (∀ r ∈ rs, r.path ≠ []) →
    parseGo (renderRecords rs) cur
      = (if pushGuard cur then [currentToInfo cur] else [])
        ++ rs.map recordToInfo := by
  induction rs with
  | nil =>
    intro cur _
    simp [renderRecords, parseGo]
  | cons r rs ih =>
    intro cur hpath
    have hr : r.path ≠ [] := hpath r (List.mem_cons_self r rs)
    cases rs with
    | nil =>
      rw [show renderRecords [r] = renderRecord r from rfl,
        show renderRecord r = renderRecord r ++ [] from
          (List.append_nil _).symm,
        parseGo_renderRecord]
      simp only [parseGo, pushGuard_currentOfRecord r hr, if_true,
        currentToInfo_currentOfRecord, List.map_cons, List.map_nil]
    | cons r2 rs2 =>
      rw [show renderRecords (r :: r2 :: rs2)
          = renderRecord r ++ [[]] ++ renderRecords (r2 :: rs2) from rfl,
        List.append_assoc, parseGo_renderRecord]
      rw [show ([[]] ++ renderRecords (r2 :: rs2) : List Line)
          = ([] : Line) :: renderRecords (r2 :: rs2) from rfl]
      rw [parseGo_blank]
      rw [ih (currentOfRecord r)
        (fun r' hr' => hpath r' (List.mem_cons_of_mem r hr'))]
      rw [pushGuard_currentOfRecord r hr]
      simp [currentToInfo_currentOfRecord]

/-- Claim C9: `listWorktrees` parses the porcelain record grammar — for an
input made of records that begin with a (nonempty) path line, optionally
followed by a head line and at most one of a branch-ref line, a bare
marker, or a detached marker, separated by blank lines, it returns exactly
one `WorktreeInfo` per record with exactly those fields; the final record
is emitted at end-of-input even with no terminating marker. -/
theorem listWorktrees_parses_record_grammar (rs : List WtRecord)
    (hpath : ∀ r ∈ rs, r.path ≠ []) :
    listWorktrees true (renderRecords rs) = rs.map recordToInfo := by
  unfold listWorktrees
  rw [if_pos rfl, parseGo_renderRecords rs emptyCurrent hpath]
  rfl

/-- Witness for claim C9: two records — a branch worktree with a head line
and a final detached record with no further lines — parse to exactly their
fields. -/
theorem listWorktrees_parses_record_grammar_witness :
    listWorktrees true (renderRecords
        [⟨"/a/main".data, some "abc1".data, some (.branchRef "main".data)⟩,
         ⟨"/a/det".data, some "def2".data, some .detachedMark⟩,
         ⟨"/a/tail".data, none, none⟩])
      = [⟨"/a/main", some "abc1", some "main", false, false⟩,
         ⟨"/a/det", some "def2", none, false, true⟩,
         ⟨"/a/tail", none, none, false, false⟩] := by
  have h := listWorktrees_parses_record_grammar
    [⟨"/a/main".data, some "abc1".data, some (.branchRef "main".data)⟩,
     ⟨"/a/det".data, some "def2".data, some .detachedMark⟩,
     ⟨"/a/tail".data, none, none⟩]
    (by decide)
  rw [h]
  decide

end WTM
